import Mathlib

/-!
Shallow embedding of `src/regex.py` — a minimal backtracking regular-expression
engine.  Python strings are modelled as `List Char`; slicing `s[1:]` is the
list tail, `s[i:]` is `List.drop i s`, `r[:-1]` is `List.dropLast r`, and
`r[1:-1]` is `(List.drop 1 r).dropLast`.  Each Lean definition mirrors the
branch structure and short-circuit evaluation order of the Python function of
the same name.
-/

namespace Regex

/-- `regex_match` from `src/regex.py` (lines 1–5): matches a single pattern
atom against a single subject character; `.` matches anything, any other
character matches only itself. -/
def regex_match (r s : Char) : Bool :=
  if r = '.' then true else r = s

/-- `regex_match_full` from `src/regex.py` (lines 8–35): the entire subject
must be consumed in lock-step with the entire pattern.  Branches, in source
order: empty pattern; escape pair (`\` plus a second pattern character);
quantified atom (second pattern character is one of `?*+`), trying the skip
branch first for `?`/`*`, then the consume branch; plain atom. -/
def regex_match_full : List Char → List Char → Bool
  | [], s => s.isEmpty
  | c0 :: rest, s =>
    match rest with
    | c1 :: rest2 =>
      if c0 = '\\' then
        -- escape pair: `regex[0] == '\\' and len(regex) >= 2`
        match s with
        | s0 :: st => c1 = s0 && regex_match_full rest2 st
        | [] => false
      else if c1 = '?' ∨ c1 = '*' ∨ c1 = '+' then
        -- quantified atom: skip first (for `?`/`*`), then consume
        (((c1 = '?' ∨ c1 = '*') && regex_match_full rest2 s) ||
          match s with
          | s0 :: st =>
            regex_match c0 s0 &&
              (regex_match_full rest2 st ||
                ((c1 = '*' ∨ c1 = '+') && regex_match_full (c0 :: c1 :: rest2) st))
          | [] => false)
      else
        -- plain atom: `regex[1:]` against `string[1:]`
        match s with
        | s0 :: st => regex_match c0 s0 && regex_match_full (c1 :: rest2) st
        | [] => false
    | [] =>
      match s with
      | s0 :: st => regex_match c0 s0 && regex_match_full [] st
      | [] => false
termination_by r s => (s.length, r.length)

/-- `regex_match_prefix` from `src/regex.py` (lines 38–64): identical
recursion to `regex_match_full` except the empty-pattern base case always
succeeds (trailing unconsumed subject is allowed). -/
def regex_match_prefix : List Char → List Char → Bool
  | [], _ => true
  | c0 :: rest, s =>
    match rest with
    | c1 :: rest2 =>
      if c0 = '\\' then
        match s with
        | s0 :: st => c1 = s0 && regex_match_prefix rest2 st
        | [] => false
      else if c1 = '?' ∨ c1 = '*' ∨ c1 = '+' then
        (((c1 = '?' ∨ c1 = '*') && regex_match_prefix rest2 s) ||
          match s with
          | s0 :: st =>
            regex_match c0 s0 &&
              ( regex_match_prefix rest2 st ||
                ((c1 = '*' ∨ c1 = '+') && regex_match_prefix (c0 :: c1 :: rest2) st))
          | [] => false)
      else
        match s with
        | s0 :: st => regex_match c0 s0 && regex_match_prefix (c1 :: rest2) st
        | [] => false
    | [] =>
      match s with
      | s0 :: st => regex_match c0 s0 && regex_match_prefix [] st
      | [] => false
termination_by r s => (s.length, r.length)

/-- The offset scan of `regex_search` (lines 79–82 and 84–87): Python's
`for i in range(len(string) + 1)` testing `string[i:]`, short-circuiting on
the first success.  `searchFrom f s` tries `f` on `s`, then on each shorter
suffix, down to and including the empty suffix. -/
def searchFrom (f : List Char → Bool) : List Char → Bool
  | [] => f []
  | s0 :: st => f (s0 :: st) || searchFrom f st

/-- `regex_search` from `src/regex.py` (lines 67–87): the public entry point.
Empty pattern matches vacuously; then anchors are resolved on the raw
pattern (`^...$` → full match of the inner pattern, `^...` → prefix match at
offset 0, `...$` → scan of `regex_match_full` over all suffixes, otherwise
scan of `regex_match_prefix` over all suffixes). -/
def regex_search (regex string : List Char) : Bool :=
  match regex with
  | [] => true
  | c :: cs =>
    if c = '^' ∧ (c :: cs).getLast? = some '$' then
      regex_match_full cs.dropLast string
    else if c = '^' then
      regex_match_prefix cs string
    else if (c :: cs).getLast? = some '$' then
      searchFrom (fun suffix => regex_match_full ((c :: cs).dropLast) suffix) string
    else
      searchFrom (fun suffix => regex_match_prefix (c :: cs) suffix) string

/-- The combined termination measure of the core matchers: the linearisation
`|s| * (|r| + 1) + |r|` of the lexicographic order on `(|s|, |r|)` under
which every recursive call of `regex_match_full` / `regex_match_prefix`
strictly decreases (the pattern length never grows along a call chain). -/
def meas (r s : List Char) : Nat :=
  s.length * (r.length + 1) + r.length

/-- Fuel-indexed executable twin of `regex_match_full`: identical branch
structure, but each recursive call spends one unit of fuel and exhausted
fuel returns `none`.  Used to express termination (`matchFullF_spec`) and to
evaluate the well-founded definition on concrete inputs. -/
def matchFullF : Nat → List Char → List Char → Bool → Option Bool
  | 0, _, _, _ => none
  | _ + 1, [], s, isFull => some (if isFull then s.isEmpty else true)
  | f + 1, c0 :: rest, s, isFull =>
    match rest with
    | c1 :: rest2 =>
      if c0 = '\\' then
        match s with
        | s0 :: st => if c1 = s0 then matchFullF f rest2 st isFull else some false
        | [] => some false
      else if c1 = '?' ∨ c1 = '*' ∨ c1 = '+' then
        (if c1 = '?' ∨ c1 = '*' then matchFullF f rest2 s isFull else some false).bind
          fun skip =>
            if skip then some true
            else
              match s with
              | s0 :: st =>
                if regex_match c0 s0 then
                  (matchFullF f rest2 st isFull).bind fun once =>
                    if once then some true
                    else if c1 = '*' ∨ c1 = '+' then
                      matchFullF f (c0 :: c1 :: rest2) st isFull
                    else some false
                else some false
              | [] => some false
      else
        match s with
        | s0 :: st =>
          if regex_match c0 s0 then matchFullF f (c1 :: rest2) st isFull
          else some false
        | [] => some false
    | [] =>
      match s with
      | s0 :: st => if regex_match c0 s0 then matchFullF f [] st isFull else some false
      | [] => some false

/-- The fueled matcher with `isFull := true` agrees with `regex_match_full`
whenever the fuel exceeds the termination measure: every recursive call
strictly decreases `meas`, so `meas r s` units of lookahead suffice. -/
theorem matchFullF_spec (r s : List Char) :
    ∀ f : Nat, meas r s < f → matchFullF f r s true = some (regex_match_full r s) := by
  induction r, s using regex_match_full.induct with
  | case1 s =>
    intro f hf
    cases f with
    | zero => exact absurd hf (Nat.not_lt_zero _)
    | succ f => simp [matchFullF, regex_match_full]
  | case2 c1 rest2 s0 st ih =>
    intro f hf
    cases f with
    | zero => exact absurd hf (Nat.not_lt_zero _)
    | succ f =>
      have harith : meas rest2 st < f := by
        simp only [meas, List.length_cons] at hf ⊢; nlinarith
      by_cases hc : c1 = s0
      · simp [matchFullF, regex_match_full, hc, ih f harith]
      · simp [matchFullF, regex_match_full, hc]
  | case3 c1 rest2 =>
    intro f hf
    cases f with
    | zero => exact absurd hf (Nat.not_lt_zero _)
    | succ f => simp [matchFullF, regex_match_full]
  | case4 c0 s q rest2 hc0 hq ihskip ihcons =>
    intro f hf
    cases f with
    | zero => exact absurd hf (Nat.not_lt_zero _)
    | succ f =>
      have harithskip : meas rest2 s < f := by
        simp only [meas, List.length_cons] at hf ⊢
        nlinarith [Nat.mul_le_mul_left s.length
          (show rest2.length + 1 ≤ rest2.length + 3 by omega)]
      cases s with
      | nil =>
        simp only [matchFullF, regex_match_full.eq_3, if_neg hc0, if_pos hq,
          ihskip f harithskip]
        by_cases hsk : q = '?' ∨ q = '*' <;>
          cases hA : regex_match_full rest2 [] <;>
            simp [hsk, hA]
      | cons s0 st =>
        obtain ⟨ih1, ih2⟩ := ihcons
        have harith1 : meas rest2 st < f := by
          simp only [meas, List.length_cons] at hf ⊢; nlinarith
        have harith2 : meas (c0 :: q :: rest2) st < f := by
          simp only [meas, List.length_cons] at hf ⊢; nlinarith
        simp only [matchFullF, regex_match_full.eq_2, if_neg hc0, if_pos hq,
          ihskip f harithskip, ih1 f harith1, ih2 f harith2, Option.some_bind]
        by_cases hsk : q = '?' ∨ q = '*' <;>
          by_cases hrep : q = '*' ∨ q = '+' <;>
            cases hA : regex_match_full rest2 (s0 :: st) <;>
              cases hm : regex_match c0 s0 <;>
                cases hA1 : regex_match_full rest2 st <;>
                  cases hA2 : regex_match_full (c0 :: q :: rest2) st <;>
                    simp [hsk, hrep, hA, hm, hA1, hA2]
  | case5 c0 c1 rest2 hc0 hq s0 st ih =>
    intro f hf
    cases f with
    | zero => exact absurd hf (Nat.not_lt_zero _)
    | succ f =>
      have harith : meas (c1 :: rest2) st < f := by
        simp only [meas, List.length_cons] at hf ⊢; nlinarith
      simp only [matchFullF, regex_match_full, if_neg hc0, if_neg hq]
      cases hm : regex_match c0 s0 with
      | false => simp [hm]
      | true => simp [hm, ih f harith]
  | case6 c0 c1 rest2 hc0 hq =>
    intro f hf
    cases f with
    | zero => exact absurd hf (Nat.not_lt_zero _)
    | succ f => simp [matchFullF, regex_match_full, if_neg hc0, if_neg hq]
  | case7 c0 s0 st ih =>
    intro f hf
    cases f with
    | zero => exact absurd hf (Nat.not_lt_zero _)
    | succ f =>
      have harith : meas ([] : List Char) st < f := by
        simp only [meas, List.length_cons, List.length_nil] at hf ⊢; nlinarith
      simp only [matchFullF, regex_match_full]
      cases hm : regex_match c0 s0 with
      | false => simp [hm]
      | true => simp [hm, ih f harith, regex_match_full]
  | case8 c0 =>
    intro f hf
    cases f with
    | zero => exact absurd hf (Nat.not_lt_zero _)
    | succ f => simp [matchFullF, regex_match_full]

/-- The fueled matcher with `isFull := false` agrees with `regex_match_prefix`
whenever the fuel exceeds the termination measure. -/
theorem matchPrefixF_spec (r s : List Char) :
    ∀ f : Nat, meas r s < f → matchFullF f r s false = some ( regex_match_prefix r s) := by
  induction r, s using regex_match_prefix.induct with
  | case1 s =>
    intro f hf
    cases f with
    | zero => exact absurd hf (Nat.not_lt_zero _)
    | succ f => simp [matchFullF, regex_match_prefix]
  | case2 c1 rest2 s0 st ih =>
    intro f hf
    cases f with
    | zero => exact absurd hf (Nat.not_lt_zero _)
    | succ f =>
      have harith : meas rest2 st < f := by
        simp only [meas, List.length_cons] at hf ⊢; nlinarith
      by_cases hc : c1 = s0
      · simp [matchFullF, regex_match_prefix, hc, ih f harith]
      · simp [matchFullF, regex_match_prefix, hc]
  | case3 c1 rest2 =>
    intro f hf
    cases f with
    | zero => exact absurd hf (Nat.not_lt_zero _)
    | succ f => simp [matchFullF, regex_match_prefix]
  | case4 c0 s q rest2 hc0 hq ihskip ihcons =>
    intro f hf
    cases f with
    | zero => exact absurd hf (Nat.not_lt_zero _)
    | succ f =>
      have harithskip : meas rest2 s < f := by
        simp only [meas, List.length_cons] at hf ⊢
        nlinarith [Nat.mul_le_mul_left s.length
          (show rest2.length + 1 ≤ rest2.length + 3 by omega)]
      cases s with
      | nil =>
        simp only [matchFullF, regex_match_prefix.eq_3, if_neg hc0, if_pos hq,
          ihskip f harithskip]
        by_cases hsk : q = '?' ∨ q = '*' <;>
          cases hA : regex_match_prefix rest2 [] <;>
            simp [hsk, hA]
      | cons s0 st =>
        obtain ⟨ih1, ih2⟩ := ihcons
        have harith1 : meas rest2 st < f := by
          simp only [meas, List.length_cons] at hf ⊢; nlinarith
        have harith2 : meas (c0 :: q :: rest2) st < f := by
          simp only [meas, List.length_cons] at hf ⊢; nlinarith
        simp only [matchFullF, regex_match_prefix.eq_2, if_neg hc0, if_pos hq,
          ihskip f harithskip, ih1 f harith1, ih2 f harith2, Option.some_bind]
        by_cases hsk : q = '?' ∨ q = '*' <;>
          by_cases hrep : q = '*' ∨ q = '+' <;>
            cases hA : regex_match_prefix rest2 (s0 :: st) <;>
              cases hm : regex_match c0 s0 <;>
                cases hA1 : regex_match_prefix rest2 st <;>
                  cases hA2 : regex_match_prefix (c0 :: q :: rest2) st <;>
                    simp [hsk, hrep, hA, hm, hA1, hA2]
  | case5 c0 c1 rest2 hc0 hq s0 st ih =>
    intro f hf
    cases f with
    | zero => exact absurd hf (Nat.not_lt_zero _)
    | succ f =>
      have harith : meas (c1 :: rest2) st < f := by
        simp only [meas, List.length_cons] at hf ⊢; nlinarith
      simp only [matchFullF, regex_match_prefix, if_neg hc0, if_neg hq]
      cases hm : regex_match c0 s0 with
      | false => simp [hm]
      | true => simp [hm, ih f harith]
  | case6 c0 c1 rest2 hc0 hq =>
    intro f hf
    cases f with
    | zero => exact absurd hf (Nat.not_lt_zero _)
    | succ f => simp [matchFullF, regex_match_prefix, if_neg hc0, if_neg hq]
  | case7 c0 s0 st ih =>
    intro f hf
    cases f with
    | zero => exact absurd hf (Nat.not_lt_zero _)
    | succ f =>
      have harith : meas ([] : List Char) st < f := by
        simp only [meas, List.length_cons, List.length_nil] at hf ⊢; nlinarith
      simp only [matchFullF, regex_match_prefix]
      cases hm : regex_match c0 s0 with
      | false => simp [hm]
      | true => simp [hm, ih f harith, regex_match_prefix]
  | case8 c0 =>
    intro f hf
    cases f with
    | zero => exact absurd hf (Nat.not_lt_zero _)
    | succ f => simp [matchFullF, regex_match_prefix]

/-- Evaluation principle for `regex_match_full`: a computed value of the
fueled twin at fuel `meas r s + 1` determines the well-founded function. -/
theorem full_eval {r s : List Char} {b : Bool}
    (h : matchFullF (meas r s + 1) r s true = some b) :
    regex_match_full r s = b := by
  have h2 := matchFullF_spec r s (meas r s + 1) (Nat.lt_succ_self _)
  rw [h] at h2
  exact (Option.some.inj h2).symm

/-- Evaluation principle for `regex_match_prefix` via the fueled twin. -/
theorem pre_eval {r s : List Char} {b : Bool}
    (h : matchFullF (meas r s + 1) r s false = some b) :
    regex_match_prefix r s = b := by
  have h2 := matchPrefixF_spec r s (meas r s + 1) (Nat.lt_succ_self _)
  rw [h] at h2
  exact (Option.some.inj h2).symm

/-- Executable twin of `regex_search`, delegating to the fueled core matcher
with sufficient fuel; used to evaluate `regex_search` on concrete inputs. -/
def searchF (regex string : List Char) : Bool :=
  match regex with
  | [] => true
  | c :: cs =>
    if c = '^' ∧ (c :: cs).getLast? = some '$' then
      (matchFullF (meas cs.dropLast string + 1) cs.dropLast string true).getD false
    else if c = '^' then
      (matchFullF (meas cs string + 1) cs string false).getD false
    else if (c :: cs).getLast? = some '$' then
      searchFrom
        (fun suffix =>
          (matchFullF (meas ((c :: cs).dropLast) suffix + 1) ((c :: cs).dropLast)
            suffix true).getD false) string
    else
      searchFrom
        (fun suffix =>
          (matchFullF (meas (c :: cs) suffix + 1) (c :: cs) suffix false).getD false)
        string

/-- `searchF` computes exactly `regex_search`. -/
theorem searchF_eq (r s : List Char) : searchF r s = regex_search r s := by
  have h1 : ∀ core suffix : List Char,
      (matchFullF (meas core suffix + 1) core suffix true).getD false =
        regex_match_full core suffix := by
    intro core suffix
    rw [matchFullF_spec core suffix _ (Nat.lt_succ_self _)]
    rfl
  have h2 : ∀ core suffix : List Char,
      (matchFullF (meas core suffix + 1) core suffix false).getD false =
        regex_match_prefix core suffix := by
    intro core suffix
    rw [matchPrefixF_spec core suffix _ (Nat.lt_succ_self _)]
    rfl
  cases r with
  | nil => rfl
  | cons c cs =>
    unfold searchF regex_search
    simp only [h1, h2]

/-- Evaluation principle for `regex_search` via `searchF`. -/
theorem search_eval {r s : List Char} {b : Bool} (h : searchF r s = b) :
    regex_search r s = b := by
  rw [← searchF_eq, h]

/-- The suffix scan is the disjunction over all start offsets
`i ∈ {0, …, |s|}` of the probe applied to `s.drop i`, short-circuiting at
the first success (Python lines 79–82 / 84–87). -/
theorem searchFrom_eq_any (f : List Char → Bool) (s : List Char) :
    searchFrom f s = (List.range (s.length + 1)).any fun i => f (s.drop i) := by
  induction s with
  | nil => simp [searchFrom, List.range_succ]
  | cons s0 st ih =>
    simp only [searchFrom, ih, List.length_cons]
    conv_rhs => rw [List.range_succ_eq_map]
    simp only [List.any_cons, List.any_map, Function.comp_def, Nat.succ_eq_add_one,
      List.drop_succ_cons, List.drop_zero]

/-- C6: for every subject `s` (including the empty subject),
`search("", s) = true`: the empty pattern is a vacuous match independent of
subject content, checked before any anchor handling. -/
theorem empty_pattern_vacuous (s : List Char) : regex_search [] s = true := rfl

/-- C7: against the empty subject, a single (non-escape, non-anchor) atom
quantified by `*` or `?` matches while `+` does not — `+` mandates at least
one occurrence.  In particular `search("a*", "") = true`,
`search("a+", "") = false` and `search("a?", "") = true`. -/
theorem quant_empty_subject :
    (∀ c q : Char, c ≠ '\\' → c ≠ '^' → (q = '*' ∨ q = '?') →
      regex_search [c, q] [] = true) ∧
    (∀ c : Char, regex_search [c, '+'] [] = false) ∧
    regex_search ['a', '*'] [] = true ∧
    regex_search ['a', '+'] [] = false ∧
    regex_search ['a', '?'] [] = true := by
  refine ⟨?_, ?_, search_eval (by decide), search_eval (by decide),
    search_eval (by decide)⟩
  · intro c q hc hca hq
    have hq' : q ≠ '$' := by rcases hq with h | h <;> simp [h]
    have hq2 : q = '?' ∨ q = '*' ∨ q = '+' := by tauto
    have hq3 : q = '?' ∨ q = '*' := by tauto
    simp only [regex_search, List.getLast?_cons_cons, List.getLast?_singleton]
    rw [if_neg (by simp [hca]), if_neg hca, if_neg (by simp [hq'])]
    simp only [searchFrom]
    simp [ regex_match_prefix.eq_3, if_neg hc, if_pos hq2, hq3, regex_match_prefix]
  · intro c
    by_cases hca : c = '^'
    · subst hca
      simp only [regex_search, List.getLast?_cons_cons, List.getLast?_singleton]
      rw [if_neg (by simp)]
      simp [ regex_match_prefix.eq_5]
    · by_cases hc : c = '\\'
      · subst hc
        simp only [regex_search, List.getLast?_cons_cons, List.getLast?_singleton]
        rw [if_neg (by simp), if_neg (by simp), if_neg (by simp)]
        simp only [searchFrom]
        simp [ regex_match_prefix.eq_3]
      · simp only [regex_search, List.getLast?_cons_cons, List.getLast?_singleton]
        rw [if_neg (by simp [hca]), if_neg hca, if_neg (by simp)]
        simp only [searchFrom]
        simp [ regex_match_prefix.eq_3, if_neg hc]

/-- Witness for C7: the universally quantified parts of
`quant_empty_subject`, instantiated at the atom `b`. -/
theorem quant_empty_subject_witness :
    regex_search ['b', '*'] [] = true ∧ regex_search ['b', '+'] [] = false :=
  ⟨quant_empty_subject.1 'b' '*' (by decide) (by decide) (Or.inl rfl),
    quant_empty_subject.2.1 'b'⟩

/-- C9: `regex_search` is deterministic — as a pure function of its two
arguments, any two invocations on identical inputs yield identical results;
no hidden state can influence the outcome. -/
theorem search_deterministic (p1 p2 s1 s2 : List Char) (hp : p1 = p2)
    (hs : s1 = s2) : regex_search p1 s1 = regex_search p2 s2 := by
  rw [hp, hs]

/-- Witness for C9 at a concrete invocation pair. -/
theorem search_deterministic_witness :
    regex_search ['a'] ['a'] = regex_search ['a'] ['a'] :=
  search_deterministic ['a'] ['a'] ['a'] ['a'] rfl rfl

/-- C4: for every non-empty pattern starting with `^` and ending with `$`,
`regex_search` strips both anchors and delegates to the full matcher on the
inner pattern `r[1:-1]` against the entire subject; in particular
`search("^abc$", "abc") = true`, `search("^abc$", "abcd") = false` and
`search("^abc$", "xabc") = false`. -/
theorem anchors_both :
    (∀ (r s : List Char), r ≠ [] → r.head? = some '^' → r.getLast? = some '$' →
      regex_search r s = regex_match_full (r.drop 1).dropLast s) ∧
    regex_search ['^', 'a', 'b', 'c', '$'] ['a', 'b', 'c'] = true ∧
    regex_search ['^', 'a', 'b', 'c', '$'] ['a', 'b', 'c', 'd'] = false ∧
    regex_search ['^', 'a', 'b', 'c', '$'] ['x', 'a', 'b', 'c'] = false := by
  refine ⟨?_, search_eval (by decide), search_eval (by decide),
    search_eval (by decide)⟩
  intro r s hne hhead hlast
  cases r with
  | nil => exact absurd rfl hne
  | cons c cs =>
    have hc : c = '^' := by simpa using hhead
    subst hc
    simp [regex_search, hlast, List.drop_one]

/-- Witness for C4 at the two-character pattern `^$`. -/
theorem anchors_both_witness :
    regex_search ['^', '$'] [] =
      regex_match_full ((['^', '$'] : List Char).drop 1).dropLast [] :=
  anchors_both.1 ['^', '$'] [] (by decide) (by decide) (by decide)

/-- C5: a pattern ending in `$` (not starting with `^`) is matched by calling
the full matcher on every suffix `s[i:]` for `i ∈ {0, …, |s|}` (the empty
suffix included), and an unanchored pattern likewise with the prefix
matcher; the scan short-circuits on the first success and yields `false` iff
no offset matches.  In particular `search("c$", "abc") = true` and
`search("c$", "abcd") = false`. -/
theorem dollar_and_unanchored_scan :
    (∀ (r s : List Char), r ≠ [] → r.head? ≠ some '^' → r.getLast? = some '$' →
      regex_search r s =
        ((List.range (s.length + 1)).any fun i =>
          regex_match_full r.dropLast (s.drop i))) ∧
    (∀ (r s : List Char), r ≠ [] → r.head? ≠ some '^' → r.getLast? ≠ some '$' →
      regex_search r s =
        ((List.range (s.length + 1)).any fun i =>
          regex_match_prefix r (s.drop i))) ∧
    regex_search ['c', '$'] ['a', 'b', 'c'] = true ∧
    regex_search ['c', '$'] ['a', 'b', 'c', 'd'] = false := by
  refine ⟨?_, ?_, search_eval (by decide), search_eval (by decide)⟩
  · intro r s hne hhead hlast
    cases r with
    | nil => exact absurd rfl hne
    | cons c cs =>
      have hc : c ≠ '^' := by simpa using hhead
      simp only [regex_search]
      rw [if_neg (by rintro ⟨h, -⟩; exact hc h), if_neg hc, if_pos hlast,
        searchFrom_eq_any]
  · intro r s hne hhead hlast
    cases r with
    | nil => exact absurd rfl hne
    | cons c cs =>
      have hc : c ≠ '^' := by simpa using hhead
      simp only [regex_search]
      rw [if_neg (by rintro ⟨h, -⟩; exact hc h), if_neg hc, if_neg hlast,
        searchFrom_eq_any]

/-- Witness for C5: both scan characterisations at concrete inputs. -/
theorem dollar_and_unanchored_scan_witness :
    regex_search ['$'] ['x'] =
      ((List.range ((['x'] : List Char).length + 1)).any fun i =>
        regex_match_full (List.dropLast ['$']) (List.drop i ['x'])) ∧
    regex_search ['a'] ['x'] =
      ((List.range ((['x'] : List Char).length + 1)).any fun i =>
        regex_match_prefix ['a'] (List.drop i ['x'])) :=
  ⟨dollar_and_unanchored_scan.1 ['$'] ['x'] (by decide) (by decide) (by decide),
    dollar_and_unanchored_scan.2.1 ['a'] ['x'] (by decide) (by decide) (by decide)⟩

/-- C1: the quantified-atom step of both core matchers, written exactly in
the source's backtracking order: for an atom `c` (not an escape) followed by
a quantifier `q ∈ {?, *, +}`, the skip branch (drop atom+quantifier, same
subject) is a disjunct guarded by `q ∈ {?, *}` and is evaluated first; the
consume branch requires one subject character matching the atom and then
either the rest of the pattern or, guarded by `q ∈ {*, +}`, the same
quantified pattern again.  For `+` both guards make the skip disjunct
`false`, i.e. skip is never tried.  In particular
`search("a*ab", "aaab") = true`, which requires genuine backtracking. -/
theorem quant_step_order :
    (∀ (c q : Char) (p s : List Char), c ≠ '\\' → (q = '?' ∨ q = '*' ∨ q = '+') →
      regex_match_full (c :: q :: p) s =
        ((decide (q = '?' ∨ q = '*') && regex_match_full p s) ||
          (match s with
           | s0 :: st =>
             regex_match c s0 &&
               (regex_match_full p st ||
                 (decide (q = '*' ∨ q = '+') && regex_match_full (c :: q :: p) st))
           | [] => false)) ∧
      regex_match_prefix (c :: q :: p) s =
        ((decide (q = '?' ∨ q = '*') && regex_match_prefix p s) ||
          (match s with
           | s0 :: st =>
             regex_match c s0 &&
               ( regex_match_prefix p st ||
                 (decide (q = '*' ∨ q = '+') && regex_match_prefix (c :: q :: p) st))
           | [] => false))) ∧
    regex_search ['a', '*', 'a', 'b'] ['a', 'a', 'a', 'b'] = true := by
  refine ⟨?_, search_eval (by decide)⟩
  intro c q p s hc hq
  constructor
  · cases s with
    | nil => rw [ regex_match_full.eq_3, if_neg hc, if_pos hq]
    | cons s0 st => rw [ regex_match_full.eq_2, if_neg hc, if_pos hq]
  · cases s with
    | nil => rw [ regex_match_prefix.eq_3, if_neg hc, if_pos hq]
    | cons s0 st => rw [ regex_match_prefix.eq_2, if_neg hc, if_pos hq]

/-- Witness for C1: the full-matcher step equation instantiated at the
concrete quantified pattern `a+` against the empty subject. -/
theorem quant_step_order_witness :
    regex_match_full ['a', '+'] [] =
      ((decide (('+' : Char) = '?' ∨ ('+' : Char) = '*') && regex_match_full [] []) ||
        (match ([] : List Char) with
         | s0 :: st =>
           regex_match 'a' s0 &&
             (regex_match_full [] st ||
               (decide (('+' : Char) = '*' ∨ ('+' : Char) = '+') &&
                 regex_match_full ['a', '+'] st))
         | [] => false)) :=
  (quant_step_order.1 'a' '+' [] [] (by decide) (by decide)).1

/-- C2 counterexample: the pattern `\$` contains `\` followed by `$`, but
`search` does not treat the pair as the single literal `$`: the anchor
resolver inspects the raw last character, strips the escaped `$`, and the
leftover core `\` matches a literal backslash.  So `search("\$", "$")` is
`false` (the claim's reading demands `true`) and `search("\$", "\")` is
`true` (the pair effectively matched a `\`, not a `$`). -/
theorem escape_pair_anchor_cex :
    regex_search ['\\', '$'] ['$'] = false ∧ regex_search ['\\', '$'] ['\\'] = true :=
  ⟨search_eval (by decide), search_eval (by decide)⟩

/-- C2 amended: inside the core matchers a `\` followed by a character `c`
is exactly the single literal `c` — the pair consumes one subject character
equal to `c` (plain equality: no wildcard, quantifier or anchor meaning) and
recursion continues past the pair with no quantifier lookahead.  `search`
inherits this except when the escaped character is a trailing `$`, which the
raw-pattern anchor resolution strips first.  The spec's concrete examples
hold: `search("a\.b", "a.b") = true` and `search("a\.b", "axb") = false`. -/
theorem escape_pair_literal :
    (∀ (c : Char) (p s : List Char),
      regex_match_full ('\\' :: c :: p) s =
        (match s with
         | s0 :: st => decide (c = s0) && regex_match_full p st
         | [] => false) ∧
      regex_match_prefix ('\\' :: c :: p) s =
        (match s with
         | s0 :: st => decide (c = s0) && regex_match_prefix p st
         | [] => false)) ∧
    regex_search ['a', '\\', '.', 'b'] ['a', '.', 'b'] = true ∧
    regex_search ['a', '\\', '.', 'b'] ['a', 'x', 'b'] = false := by
  refine ⟨?_, search_eval (by decide), search_eval (by decide)⟩
  intro c p s
  constructor
  · cases s with
    | nil => rw [ regex_match_full.eq_3, if_pos rfl]
    | cons s0 st => rw [ regex_match_full.eq_2, if_pos rfl]
  · cases s with
    | nil => rw [ regex_match_prefix.eq_3, if_pos rfl]
    | cons s0 st => rw [ regex_match_prefix.eq_2, if_pos rfl]

/-- C3 counterexample: a pattern ending in a lone unescaped `\` is not a
guaranteed non-match — against the one-character subject `\` it matches. -/
theorem lone_backslash_cex : regex_search ['\\'] ['\\'] = true :=
  search_eval (by decide)

/-- C3 amended: a trailing lone unescaped `\` is handled bounds-checked and
without any exception (the matchers are total functions), but it is treated
as a literal backslash atom rather than a guaranteed non-match: the full
matcher on the pattern `\` accepts exactly the subject `\`, the prefix
matcher accepts exactly subjects starting with `\`, and e.g.
`search("a\", "a\") = true` while `search("\", "x") = false`. -/
theorem lone_backslash_literal :
    (∀ s : List Char, regex_match_full ['\\'] s = decide (s = ['\\'])) ∧
    (∀ s : List Char, regex_match_prefix ['\\'] s =
      (match s with
       | s0 :: _ => decide (s0 = '\\')
       | [] => false)) ∧
    regex_search ['\\'] ['\\'] = true ∧
    regex_search ['\\'] ['x'] = false ∧
    regex_search ['a', '\\'] ['a', '\\'] = true := by
  refine ⟨?_, ?_, search_eval (by decide), search_eval (by decide),
    search_eval (by decide)⟩
  · intro s
    cases s with
    | nil => rw [ regex_match_full.eq_5]; simp
    | cons s0 st =>
      rw [ regex_match_full.eq_4, regex_match_full.eq_1]
      by_cases h1 : s0 = '\\'
      · subst h1
        by_cases h2 : st = []
        · subst h2; simp [regex_match]
        · simp [regex_match, h2]
      · simp [regex_match, h1, Ne.symm h1]
  · intro s
    cases s with
    | nil => rw [ regex_match_prefix.eq_5]
    | cons s0 st =>
      rw [ regex_match_prefix.eq_4, regex_match_prefix.eq_1]
      by_cases h1 : s0 = '\\'
      · subst h1; simp [regex_match]
      · simp [regex_match, h1, Ne.symm h1]

/-- C8: both core matchers and the search driver terminate with a boolean
for every pattern/subject pair.  Termination is exhibited constructively:
the fueled twin, which spends one fuel unit per recursive call and is
`none` on fuel exhaustion, returns `some` of the matcher's value already at
fuel `meas r s + 1`, because every recursive call strictly decreases the
lexicographic pair `(subject length, pattern length)` whose linearisation
`meas` bounds the recursion depth; all pattern/subject lookaheads are
realised by total pattern matching (bounds-guarded), and `regex_search`
always returns one of the two booleans. -/
theorem engine_total (r s : List Char) :
    matchFullF (meas r s + 1) r s true = some (regex_match_full r s) ∧
    matchFullF (meas r s + 1) r s false = some ( regex_match_prefix r s) ∧
    ((regex_search r s = true) ∨ (regex_search r s = false)) :=
  ⟨matchFullF_spec r s _ (Nat.lt_succ_self _),
    matchPrefixF_spec r s _ (Nat.lt_succ_self _),
    Bool.eq_false_or_eq_true (regex_search r s)⟩

/-- C10 (implicit): a full match implies a prefix match — the prefix matcher
is pointwise weaker than the full matcher, the two differing only in the
empty-pattern base case. -/
theorem full_match_implies_pre (r s : List Char)
    (h : regex_match_full r s = true) : regex_match_prefix r s = true := by
  induction r, s using regex_match_full.induct with
  | case1 s => rw [ regex_match_prefix.eq_1]
  | case2 c1 rest2 s0 st ih =>
    rw [ regex_match_full.eq_2, if_pos rfl] at h
    rw [ regex_match_prefix.eq_2, if_pos rfl]
    simp only [Bool.and_eq_true] at h ⊢
    exact ⟨h.1, ih h.2⟩
  | case3 c1 rest2 =>
    rw [ regex_match_full.eq_3, if_pos rfl] at h
    exact absurd h (by simp)
  | case4 c0 s q rest2 hc0 hq ihskip ihcons =>
    cases s with
    | nil =>
      rw [ regex_match_full.eq_3, if_neg hc0, if_pos hq] at h
      rw [ regex_match_prefix.eq_3, if_neg hc0, if_pos hq]
      simp only [Bool.or_false, Bool.and_eq_true] at h ⊢
      exact ⟨h.1, ihskip h.2⟩
    | cons s0 st =>
      obtain ⟨ih1, ih2⟩ := ihcons
      rw [ regex_match_full.eq_2, if_neg hc0, if_pos hq] at h
      rw [ regex_match_prefix.eq_2, if_neg hc0, if_pos hq]
      simp only [Bool.or_eq_true, Bool.and_eq_true] at h ⊢
      rcases h with ⟨hsk, hA⟩ | ⟨hm, hB | ⟨hrep, hC⟩⟩
      · exact Or.inl ⟨hsk, ihskip hA⟩
      · exact Or.inr ⟨hm, Or.inl (ih1 hB)⟩
      · exact Or.inr ⟨hm, Or.inr ⟨hrep, ih2 hC⟩⟩
  | case5 c0 c1 rest2 hc0 hq s0 st ih =>
    rw [ regex_match_full.eq_2, if_neg hc0, if_neg hq] at h
    rw [ regex_match_prefix.eq_2, if_neg hc0, if_neg hq]
    simp only [Bool.and_eq_true] at h ⊢
    exact ⟨h.1, ih h.2⟩
  | case6 c0 c1 rest2 hc0 hq =>
    rw [ regex_match_full.eq_3, if_neg hc0, if_neg hq] at h
    exact absurd h (by simp)
  | case7 c0 s0 st ih =>
    rw [ regex_match_full.eq_4] at h
    rw [ regex_match_prefix.eq_4, regex_match_prefix.eq_1]
    simp only [Bool.and_eq_true] at h ⊢
    exact ⟨h.1, trivial⟩
  | case8 c0 =>
    rw [ regex_match_full.eq_5] at h
    exact absurd h (by simp)

/-- Witness for C10 at the pattern `a` against the subject `a`. -/
theorem full_match_implies_pre_witness :
    regex_match_full ['a'] ['a'] = true ∧ regex_match_prefix ['a'] ['a'] = true :=
  ⟨full_eval (by decide), full_match_implies_pre ['a'] ['a'] (full_eval (by decide))⟩

end Regex
